import Mathlib

/-!
Verification of the Aurum data-discovery query algebra (`algebra.py`).

The file shallowly embeds the `Algebra` class of `algebra.py` in Lean.
The `DRS`/`Hit`/`Operation` data model, the `Network` and `Store`
collaborators and the `MDClass`/`MDRelation`/`MRS` metadata types live in
`api/apiutils.py` and `api/annotation.py`, which are not part of the core
source file; those are modelled from the specification (their definitions
carry a `Modelled from the spec:` note).  Everything else is a direct
translation of the Python methods of `algebra.py`.

Conventions of the embedding:
* Python exceptions (`ValueError`, `AssertionError`, `IndexError`,
  `AttributeError`) become `Except.error` with the corresponding message.
* A Python method that can fall off its end returns `Option` (`none` is
  Python `None`).
* Calls into the external `Network` and `Store` collaborators are
  instrumented: the embedded functions additionally return the ordered
  list of collaborator calls they perform (`NetCall` / `StoreCall`).
  The collaborators themselves are pure functions packed in an `Env`.
* `absorb` and `absorb_provenance` mutate their receiver in Python
  (`paths` and `traverse` call them for their side effect and discard the
  result); the embedding threads the updated value explicitly, and where
  Python aliasing makes a mutation visible to the caller
  (`neighbor_search` passing `i_drs` into `_general_to_field_drs`) the
  embedding passes the updated value along.
-/

namespace Aurum

/-- Modelled from the spec: mode tag of a DRS, FIELDS (column granularity)
or TABLE (table granularity). -/
inductive DRSMode
  | FIELDS
  | TABLE
deriving DecidableEq

/-- Modelled from the spec: a Hit identifies one catalog node: `nid`
(stable numeric identity), database / source (table) / field (column)
names, and a relevance score.  The score is a Python float used only as
the constant `0` by the code under verification, so it is modelled as an
integer. -/
structure Hit where
  nid : Nat
  db_name : String
  source_name : String
  field_name : String
  score : Int
deriving DecidableEq

/-- Modelled from the spec: the lineage tag of a DRS.  `Operation(OP.X,
params)` is collapsed into one constructor per kind, carrying its
parameters. -/
inductive Operation
  | NONE
  | KW_LOOKUP (kw : String)
  | ORIGIN
  | TABLE (h : Hit)
deriving DecidableEq

/-- True when some hit of `l` has node id `n`.  Hit identity for all set
operations is `nid` alone (spec, data model). -/
def hasNid (l : List Hit) (n : Nat) : Bool :=
  l.any (fun h => h.nid == n)

/-- Append `h` to `l` unless a hit with the same `nid` is already
present. -/
def addHit (l : List Hit) (h : Hit) : List Hit :=
  if hasNid l h.nid then l else l ++ [h]

/-- Left-to-right nid-deduplicating union of two hit lists: the hits of
`l` followed by those hits of `m` whose `nid` is new. -/
def mergeHits (l m : List Hit) : List Hit :=
  m.foldl addHit l

/-- Deduplicate a hit list by `nid`, keeping the first occurrence. -/
def dedupHits (m : List Hit) : List Hit :=
  mergeHits [] m

/-- Modelled from the spec: a Domain Result Set: an ordered,
nid-deduplicated hit list, a mode, and the provenance trail (own
operation followed by every absorbed operation). -/
structure DRS where
  data : List Hit
  mode : DRSMode
  trail : List Operation
deriving DecidableEq

/-- Modelled from the spec: the `DRS(data, operation)` constructor;
deduplicates by nid (keeping the first occurrence) and defaults the mode
to FIELDS. -/
def mkDRS (hits : List Hit) (op : Operation) : DRS :=
  ⟨dedupHits hits, DRSMode.FIELDS, [op]⟩

/-- Modelled from the spec: `absorb_provenance` appends the other trail
to the receiver trail, leaving membership untouched (the Python method
mutates the receiver and returns it). -/
def DRS.absorbProvenance (a b : DRS) : DRS :=
  { a with trail := a.trail ++ b.trail }

/-- Modelled from the spec: `absorb` takes the nid-union of the hits
(no mode check) and concatenates the provenance trails (the Python
method mutates the receiver and returns it). -/
def DRS.absorb (a b : DRS) : DRS :=
  ⟨mergeHits a.data b.data, a.mode, a.trail ++ b.trail⟩

/-- Modelled from the spec: `set_table_mode` mutates the mode tag. -/
def DRS.setTableMode (a : DRS) : DRS :=
  { a with mode := DRSMode.TABLE }

/-- Modelled from the spec: `set_fields_mode` mutates the mode tag. -/
def DRS.setFieldsMode (a : DRS) : DRS :=
  { a with mode := DRSMode.FIELDS }

/-- Modelled from the spec: `DRS.union`: hits present in either operand
by nid, provenance of both. -/
def DRS.unionDRS (a b : DRS) : DRS :=
  ⟨mergeHits a.data b.data, a.mode, a.trail ++ b.trail⟩

/-- Modelled from the spec: `DRS.intersection`: hits of `a` whose nid
also occurs in `b`, provenance of both. -/
def DRS.interDRS (a b : DRS) : DRS :=
  ⟨a.data.filter (fun h => hasNid b.data h.nid), a.mode, a.trail ++ b.trail⟩

/-- Modelled from the spec: `DRS.set_difference`: hits of `a` whose nid
does not occur in `b`, provenance of both. -/
def DRS.setDifference (a b : DRS) : DRS :=
  ⟨a.data.filter (fun h => !hasNid b.data h.nid), a.mode, a.trail ++ b.trail⟩

/-- Modelled from the spec: equality between DRS values is tested on the
hit sets by nid identity (used by `paths` in `drs_b != drs_a`). -/
def drsEq (a b : DRS) : Bool :=
  (a.data.all (fun h => hasNid b.data h.nid)) &&
    (b.data.all (fun h => hasNid a.data h.nid))

/-- Modelled from the spec: graph edge kinds; opaque to the algebra,
passed through to the Network collaborator. -/
inductive Relation
  | PKFK
  | SCHEMA_SIM
  | CONTENT_SIM
deriving DecidableEq

/-- Modelled from the spec: a metadata hit record returned by the Store
collaborator; its contents are opaque to the algebra. -/
structure MDHit where
  mid : Nat
deriving DecidableEq

/-- Modelled from the spec: a Metadata Result Set is an accumulation-only
container of metadata hits, with no mode. -/
structure MRS where
  data : List MDHit
deriving DecidableEq

/-- Modelled from the spec: the annotation classes. -/
inductive MDClass
  | WARNING
  | INSIGHT
  | QUESTION
deriving DecidableEq

/-- Modelled from the spec: the directed semantic relations between
annotated nodes. -/
inductive MDRelation
  | MEANS_SAME_AS
  | MEANS_DIFF_FROM
  | IS_SUBCLASS_OF
  | IS_SUPERCLASS_OF
  | IS_MEMBER_OF
  | IS_CONTAINER_OF
deriving DecidableEq

/-- Modelled from the spec: the consumed interface of the external
Network collaborator (relationship graph), as pure functions.
`find_path_table` also receives the algebra engine in Python; the engine
reference is dropped here since the collaborator is opaque. -/
structure Network where
  get_info_for : List String → List (Nat × String × String × String)
  get_hits_from_table : String → List Hit
  neighbors_id : Hit → Relation → DRS
  find_path_hit : Hit → Hit → Relation → Nat → DRS
  find_path_table : Hit → Hit → Relation → Nat → DRS

/-- Modelled from the spec: the consumed interface of the external Store
collaborator (annotation persistence), as pure functions. -/
structure Store where
  add_annot : String → String → String → Nat → Option (Nat × String) → MDHit
  get_metadata : Option Nat → Option (String × Bool) → List MDHit

/-- The collaborators handed to `Algebra.__init__`, plus the pure
identifier derivation `compute_field_id` (imported by `algebra.py` from
`api.apiutils`, not part of the source file; the spec states it is a pure
function of the three names). -/
structure Env where
  network : Network
  store_client : Store
  id_from : String → String → String → Nat

/-- One observed call into the Network collaborator. -/
inductive NetCall
  | get_info_for (ids : List String)
  | get_hits_from_table (t : String)
  | neighbors_id (h : Hit) (r : Relation)
  | find_path_hit (h1 h2 : Hit) (r : Relation) (max_hops : Nat)
  | find_path_table (h1 h2 : Hit) (r : Relation) (max_hops : Nat)
deriving DecidableEq

/-- One observed call into the Store collaborator. -/
inductive StoreCall
  | add_annot (author text md_class : String) (source : Nat)
      (target : Option (Nat × String))
  | get_metadata (nid : Option Nat) (rel : Option (String × Bool))
deriving DecidableEq

/-- The duck-typed union of inputs accepted by `_general_to_drs`:
Python `None`, an integer, a string, a `(db, source, field)` tuple, a
`Hit`, or a `DRS`. -/
inductive GInput
  | nothing
  | intv (n : Int)
  | strv (s : String)
  | node (db source field : String)
  | hit (h : Hit)
  | drs (d : DRS)
deriving DecidableEq

/-- `Algebra._represents_int`: `int(x)` succeeds exactly on integers and
on strings that parse as integers (Python `int()` parsing is modelled by
`String.toInt?`); on every other accepted shape it raises and the helper
returns `False`. -/
def representsInt : GInput → Bool
  | .intv _ => true
  | .strv s => (s.toInt?).isSome
  | _ => false

/-- `Algebra._nid_to_hit`: stringify the identifier, look it up through
`Network.get_info_for`, and build a zero-score Hit from the first result
tuple.  An empty result makes the `[0]` subscript raise `IndexError`. -/
def nidToHit (env : Env) (key : String) : Except String Hit × List NetCall :=
  match env.network.get_info_for [key] with
  | [] => (Except.error "IndexError: list index out of range",
           [NetCall.get_info_for [key]])
  | (nid, db, source, field) :: _ =>
      (Except.ok ⟨nid, db, source, field, 0⟩, [NetCall.get_info_for [key]])

/-- `Algebra._hit_to_drs`: in table mode, expand the hit's source table
through the Network into a TABLE-mode DRS tagged `Operation(OP.TABLE,
params=[hit])`; otherwise a singleton ORIGIN DRS. -/
def hitToDrs (env : Env) (h : Hit) (table_mode : Bool) : DRS × List NetCall :=
  if table_mode then
    let hits := env.network.get_hits_from_table h.source_name
    ((mkDRS hits (Operation.TABLE h)).setTableMode,
     [NetCall.get_hits_from_table h.source_name])
  else
    (mkDRS [h] Operation.ORIGIN, [])

/-- The Hit branch of `_general_to_drs`: a hit whose field component is
empty denotes a whole table and is expanded in table mode; otherwise it
becomes a singleton FIELDS DRS. -/
def hitBranch (env : Env) (h : Hit) : DRS × List NetCall :=
  if h.field_name = "" then hitToDrs env h true else hitToDrs env h false

/-- `Algebra._general_to_drs`: normalize any accepted input shape to a
DRS, following the source's sequential type probing: DRS unchanged;
`None` becomes an empty NONE-tagged DRS; integers and numeric strings go
through `_nid_to_hit`; other strings are table names expanded through the
Network; 3-tuples go through `_node_to_hit`; hits through
`_hit_to_drs`. -/
def generalToDrs (env : Env) : GInput → Except String DRS × List NetCall
  | .drs d => (Except.ok d, [])
  | .nothing => (Except.ok (mkDRS [] Operation.NONE), [])
  | .intv n =>
      match nidToHit env (toString n) with
      | (Except.error e, tr) => (Except.error e, tr)
      | (Except.ok h, tr) =>
          let (d, tr2) := hitBranch env h
          (Except.ok d, tr ++ tr2)
  | .strv s =>
      if (s.toInt?).isSome then
        match nidToHit env s with
        | (Except.error e, tr) => (Except.error e, tr)
        | (Except.ok h, tr) =>
            let (d, tr2) := hitBranch env h
            (Except.ok d, tr ++ tr2)
      else
        let hits := env.network.get_hits_from_table s
        (Except.ok (mkDRS hits Operation.ORIGIN),
         [NetCall.get_hits_from_table s])
  | .node db source field =>
      let h : Hit := ⟨env.id_from db source field, db, source, field, 0⟩
      let (d, tr) := hitBranch env h
      (Except.ok d, tr)
  | .hit h =>
      let (d, tr) := hitBranch env h
      (Except.ok d, tr)

/-- Message of the `AssertionError` raised by `_assert_same_mode` on a
mode mismatch (the two message fragments of the source joined). -/
def assertSameModeMsg : String :=
  "Input parameters are not in the same mode (fields, table)"

/-- `Algebra.union`: normalize both operands, assert equal mode, then
delegate to `DRS.union`. -/
def unionG (env : Env) (ga gb : GInput) : Except String DRS :=
  match (generalToDrs env ga).1 with
  | Except.error e => Except.error e
  | Except.ok a =>
    match (generalToDrs env gb).1 with
    | Except.error e => Except.error e
    | Except.ok b =>
      if a.mode = b.mode then Except.ok (a.unionDRS b)
      else Except.error assertSameModeMsg

/-- `Algebra.intersection`: normalize both operands, assert equal mode,
then delegate to `DRS.intersection`. -/
def interG (env : Env) (ga gb : GInput) : Except String DRS :=
  match (generalToDrs env ga).1 with
  | Except.error e => Except.error e
  | Except.ok a =>
    match (generalToDrs env gb).1 with
    | Except.error e => Except.error e
    | Except.ok b =>
      if a.mode = b.mode then Except.ok (a.interDRS b)
      else Except.error assertSameModeMsg

/-- `Algebra.difference`: the source normalizes each operand twice
(lines 297-298 and again 305-306); the second pass receives the DRS
produced by the first and is kept here literally.  Then assert equal
mode and delegate to `DRS.set_difference`. -/
def differenceG (env : Env) (ga gb : GInput) : Except String DRS :=
  match (generalToDrs env ga).1 with
  | Except.error e => Except.error e
  | Except.ok a0 =>
    match (generalToDrs env gb).1 with
    | Except.error e => Except.error e
    | Except.ok b0 =>
      match (generalToDrs env (GInput.drs a0)).1 with
      | Except.error e => Except.error e
      | Except.ok a =>
        match (generalToDrs env (GInput.drs b0)).1 with
        | Except.error e => Except.error e
        | Except.ok b =>
          if a.mode = b.mode then Except.ok (a.setDifference b)
          else Except.error assertSameModeMsg

/-- Message of the `ValueError` raised by `traverse` on TABLE-mode
input. -/
def tableModeErrorMsg : String :=
  "input mode DRSMode.TABLE not supported"

/-- Message of the `AttributeError` raised inside `traverse`'s loop:
line 259 reads `self.__network`, which Python name-mangles to
`self._Algebra__network`; `__init__` only ever assigns `self._network`,
so the attribute lookup fails before any Network call is made. -/
def attrErrorMsg : String :=
  "AttributeError: _Algebra__network"

/-- The while loop of `traverse`: each round iterates the fringe; the
first fringe element makes the `self.__network` attribute lookup raise
(see `attrErrorMsg`); an empty fringe completes the round and the fringe
becomes the accumulator. -/
def traverseLoop (o fringe : DRS) : Nat → Except String DRS
  | 0 => Except.ok o
  | Nat.succ k =>
    match fringe.data with
    | [] => traverseLoop o o k
    | _ :: _ => Except.error attrErrorMsg

/-- `Algebra.traverse`: normalize the seed, reject TABLE mode, start an
empty accumulator absorbing the seed's provenance, then run up to
`max_hops` rounds of `traverseLoop`. -/
def traverse (env : Env) (ga : GInput) (primitive : Relation)
    (max_hops : Nat) : Except String DRS × List NetCall :=
  match generalToDrs env ga with
  | (Except.error e, tr) => (Except.error e, tr)
  | (Except.ok a, tr) =>
    if a.mode = DRSMode.TABLE then (Except.error tableModeErrorMsg, tr)
    else
      let o := (mkDRS [] Operation.NONE).absorbProvenance a
      (traverseLoop o a max_hops, tr)

/-- The loop of `_general_to_field_drs`: Python iterates `for h in drs`
by index over a hit list that the loop body itself grows through the
mutating `absorb`, so appended column hits are themselves visited.  The
recursion is fuel-indexed because with an unconstrained Network the
Python loop need not terminate; `none` means the fuel ran out. -/
def generalToFieldDrsLoop (env : Env) :
    Nat → DRS → Nat → Option DRS × List NetCall
  | 0, d, i =>
      if i < d.data.length then (none, []) else (some d, [])
  | Nat.succ fuel, d, i =>
      if h : i < d.data.length then
        let ft := hitToDrs env (d.data.get ⟨i, h⟩) true
        let rec2 := generalToFieldDrsLoop env fuel (d.absorb ft.1) (i + 1)
        (rec2.1, ft.2 ++ rec2.2)
      else (some d, [])

/-- `Algebra._general_to_field_drs`: normalize, force FIELDS mode, then
absorb every visited hit's table expansion into the (aliased, mutated)
DRS. -/
def generalToFieldDrs (env : Env) (g : GInput) (fuel : Nat) :
    Option (Except String DRS) × List NetCall :=
  match generalToDrs env g with
  | (Except.error e, tr) => (some (Except.error e), tr)
  | (Except.ok d, tr) =>
    let (res, tr2) := generalToFieldDrsLoop env fuel d.setFieldsMode 0
    (res.map Except.ok, tr ++ tr2)

/-- The neighbor loop of `neighbor_search`: one `neighbors_id` query per
hit, each partial result folded into the accumulator with `absorb`. -/
def neighborFold (env : Env) (relation : Relation) :
    DRS → List Hit → DRS × List NetCall
  | o, [] => (o, [])
  | o, h :: rest =>
    let rec2 := neighborFold env relation
      (o.absorb (env.network.neighbors_id h relation)) rest
    (rec2.1, NetCall.neighbors_id h relation :: rec2.2)

/-- `Algebra.neighbor_search`: normalize the input, absorb its
provenance into a fresh accumulator, and if the input is in TABLE mode
run `_general_to_field_drs` on it — the return value is discarded in the
source, but the callee mutates the aliased input DRS in place, so the
neighbor loop then iterates the expanded DRS.  Finally query
`neighbors_id` for every hit and fold with `absorb`.  The fuel bounds
the expansion loop; `none` means the model's fuel ran out. -/
def neighborSearch (env : Env) (g : GInput) (relation : Relation)
    (fuel : Nat) : Option (Except String DRS) × List NetCall :=
  match generalToDrs env g with
  | (Except.error e, tr) => (some (Except.error e), tr)
  | (Except.ok i, tr) =>
    let o := (mkDRS [] Operation.NONE).absorbProvenance i
    if i.mode = DRSMode.TABLE then
      match generalToFieldDrsLoop env fuel i.setFieldsMode 0 with
      | (none, tr2) => (none, tr ++ tr2)
      | (some i2, tr2) =>
        let nf := neighborFold env relation o i2.data
        (some (Except.ok nf.1), tr ++ tr2 ++ nf.2)
    else
      let nf := neighborFold env relation o i.data
      (some (Except.ok nf.1), tr ++ nf.2)

/-- Row-major Cartesian product of two hit lists, the enumeration order
of `itertools.product(drs_a, drs_b)`. -/
def pairsOf : List Hit → List Hit → List (Hit × Hit)
  | [], _ => []
  | h :: t, lb => lb.map (fun h2 => (h, h2)) ++ pairsOf t lb

/-- The pair loop of `paths`: for each `(h1, h2)` ask the Network for a
bounded path (hit-level in FIELDS mode, table-level otherwise) and fold
the result into the accumulator with `absorb`. -/
def pathsLoop (env : Env) (mode : DRSMode) (relation : Relation)
    (max_hops : Nat) : DRS → List (Hit × Hit) → DRS
  | o, [] => o
  | o, (h1, h2) :: rest =>
    let res :=
      if mode = DRSMode.FIELDS then
        env.network.find_path_hit h1 h2 relation max_hops
      else
        env.network.find_path_table h1 h2 relation max_hops
    pathsLoop env mode relation max_hops (o.absorb res) rest

/-- `Algebra.paths`: normalize both sides, assert equal mode, absorb the
provenance of `a` — and of `b` only when `drs_b != drs_a`, where DRS
equality compares the hit sets by nid — then fold a bounded path query
over the Cartesian product of the two hit lists. -/
def paths (env : Env) (ga gb : GInput) (relation : Relation)
    (max_hops : Nat) : Except String DRS :=
  match (generalToDrs env ga).1 with
  | Except.error e => Except.error e
  | Except.ok a =>
    match (generalToDrs env gb).1 with
    | Except.error e => Except.error e
    | Except.ok b =>
      if a.mode = b.mode then
        let o0 := (mkDRS [] Operation.NONE).absorbProvenance a
        let o1 := if drsEq b a then o0 else o0.absorbProvenance b
        Except.ok (pathsLoop env a.mode relation max_hops o1
          (pairsOf a.data b.data))
      else Except.error assertSameModeMsg

/-- `Algebra._mdclass_to_str`: the dispatch table from annotation class
to its stored label. -/
def mdclassToStr : MDClass → String
  | .WARNING => "warning"
  | .INSIGHT => "insight"
  | .QUESTION => "question"

/-- `Algebra._mdrelation_to_str`: the dispatch table from a metadata
relation to its stored label and the `nid_is_source` orientation flag;
the superclass/container relations share a label with subclass/member at
the inverse orientation. -/
def mdrelationToStr : MDRelation → String × Bool
  | .MEANS_SAME_AS => ("same", true)
  | .MEANS_DIFF_FROM => ("different", true)
  | .IS_SUBCLASS_OF => ("subclass", true)
  | .IS_SUPERCLASS_OF => ("subclass", false)
  | .IS_MEMBER_OF => ("member", true)
  | .IS_CONTAINER_OF => ("member", false)

/-- Message of the `ValueError` raised by `annotate` on non-FIELDS
sources or targets. -/
def annotateModeMsg : String := "source and targets must be columns"

/-- `Algebra.annotate`: normalize source and target (the `ref` argument
is split into its `general_target` and `type` entries), require FIELDS
mode on both, then store annotations.  Without a relation type, one
annotation per source hit.  With one, resolve the relation, swap source
and target when the orientation flag is false, and — because the
source's `return` statement sits inside the loop over source hits —
store one annotation per target hit for the first source hit only,
returning `None` (modelled `Option.none`) when the post-swap source is
empty. -/
def annotate (env : Env) (author text : String) (md_class : MDClass)
    (general_source : GInput) (ref_target : GInput)
    (ref_type : Option MDRelation) :
    Except String (Option MRS) × List StoreCall :=
  match (generalToDrs env general_source).1 with
  | Except.error e => (Except.error e, [])
  | Except.ok source =>
    match (generalToDrs env ref_target).1 with
    | Except.error e => (Except.error e, [])
    | Except.ok target =>
      if source.mode ≠ DRSMode.FIELDS ∨ target.mode ≠ DRSMode.FIELDS then
        (Except.error annotateModeMsg, [])
      else
        let mdc := mdclassToStr md_class
        match ref_type with
        | none =>
          (Except.ok (some ⟨source.data.map (fun h =>
              env.store_client.add_annot author text mdc h.nid none)⟩),
           source.data.map (fun h =>
              StoreCall.add_annot author text mdc h.nid none))
        | some r =>
          let md_relation := (mdrelationToStr r).1
          let nid_is_source := (mdrelationToStr r).2
          let src := if nid_is_source then source else target
          let tgt := if nid_is_source then target else source
          match src.data with
          | [] => (Except.ok none, [])
          | s0 :: _ =>
            (Except.ok (some ⟨tgt.data.map (fun h =>
                env.store_client.add_annot author text mdc s0.nid
                  (some (h.nid, md_relation)))⟩),
             tgt.data.map (fun h =>
                StoreCall.add_annot author text mdc s0.nid
                  (some (h.nid, md_relation))))

/-- Message of the `ValueError` raised by `md_search` on non-FIELDS
input. -/
def mdSearchModeMsg : String := "general_input must be columns"

/-- Concatenate per-node Store results, preserving order. -/
def concatAll : List (List MDHit) → List MDHit
  | [] => []
  | l :: ls => l ++ concatAll ls

/-- `Algebra.md_search`: with no input, return all metadata; otherwise
normalize, require FIELDS mode, then query the Store per node — with the
resolved relation and orientation when one was given. -/
def mdSearch (env : Env) (general_input : Option GInput)
    (relation : Option MDRelation) : Except String MRS × List StoreCall :=
  match general_input with
  | none =>
      (Except.ok ⟨env.store_client.get_metadata none none⟩,
       [StoreCall.get_metadata none none])
  | some g =>
    match (generalToDrs env g).1 with
    | Except.error e => (Except.error e, [])
    | Except.ok drs_nodes =>
      if drs_nodes.mode ≠ DRSMode.FIELDS then
        (Except.error mdSearchModeMsg, [])
      else
        match relation with
        | none =>
          (Except.ok ⟨concatAll (drs_nodes.data.map (fun h =>
              env.store_client.get_metadata (some h.nid) none))⟩,
           drs_nodes.data.map (fun h =>
              StoreCall.get_metadata (some h.nid) none))
        | some r =>
          let sr := mdrelationToStr r
          (Except.ok ⟨concatAll (drs_nodes.data.map (fun h =>
              env.store_client.get_metadata (some h.nid) (some sr)))⟩,
           drs_nodes.data.map (fun h =>
              StoreCall.get_metadata (some h.nid) (some sr)))

/-!
Concrete test fixtures shared by the witnesses and counterexamples: a
trivial environment whose collaborators return empty results, and a few
small hits and DRS values.
-/

/-- A Network whose queries all come back empty. -/
def emptyNetwork : Network :=
  ⟨fun _ => [], fun _ => [], fun _ _ => mkDRS [] Operation.NONE,
   fun _ _ _ _ => mkDRS [] Operation.NONE,
   fun _ _ _ _ => mkDRS [] Operation.NONE⟩

/-- A Store whose queries come back empty and whose writes return a
fixed metadata hit. -/
def emptyStore : Store :=
  ⟨fun _ _ _ _ _ => ⟨0⟩, fun _ _ => []⟩

/-- The trivial environment. -/
def env0 : Env := ⟨emptyNetwork, emptyStore, fun _ _ _ => 0⟩

/-- A column hit used as a FIELDS-mode seed. -/
def seedHit : Hit := ⟨1, "db", "T", "c", 0⟩

/-- A one-hit FIELDS-mode seed DRS. -/
def seedDrs : DRS := ⟨[seedHit], DRSMode.FIELDS, [Operation.ORIGIN]⟩

/-- A hit with an empty field component, denoting the whole table T. -/
def tableHit : Hit := ⟨7, "db", "T", "", 0⟩

/-- An empty FIELDS-mode DRS. -/
def fieldsEmptyDrs : DRS := ⟨[], DRSMode.FIELDS, [Operation.NONE]⟩

/-- An empty TABLE-mode DRS. -/
def tableEmptyDrs : DRS := ⟨[], DRSMode.TABLE, [Operation.NONE]⟩

/-- A DRS sharing `seedDrs`'s hit set (same single nid) but carrying a
four-operation trail. -/
def sameNidLongTrailDrs : DRS :=
  ⟨[seedHit], DRSMode.FIELDS,
   [Operation.ORIGIN, Operation.ORIGIN, Operation.ORIGIN, Operation.ORIGIN]⟩

/-- A one-hit FIELDS DRS whose nid differs from `seedDrs`'s. -/
def otherNidDrs : DRS :=
  ⟨[⟨2, "db", "T", "d", 0⟩], DRSMode.FIELDS,
   [Operation.NONE, Operation.NONE]⟩

/-- First source hit of the two-source annotation fixtures. -/
def srcHitA : Hit := ⟨10, "db", "S", "f1", 0⟩

/-- Second source hit of the two-source annotation fixtures. -/
def srcHitB : Hit := ⟨11, "db", "S", "f2", 0⟩

/-- Target hit of the annotation fixtures. -/
def tgtHitC : Hit := ⟨20, "db", "U", "g1", 0⟩

/-- A two-hit FIELDS-mode source DRS. -/
def srcDrs2 : DRS := ⟨[srcHitA, srcHitB], DRSMode.FIELDS, [Operation.ORIGIN]⟩

/-- A one-hit FIELDS-mode target DRS. -/
def tgtDrs1 : DRS := ⟨[tgtHitC], DRSMode.FIELDS, [Operation.ORIGIN]⟩

/-- A Network whose identifier catalog maps "42" to
(dbA, orders, customer_id). -/
def network42 : Network :=
  ⟨fun ids => if ids = ["42"] then [(42, "dbA", "orders", "customer_id")]
    else [],
   fun _ => [], fun _ _ => mkDRS [] Operation.NONE,
   fun _ _ _ _ => mkDRS [] Operation.NONE,
   fun _ _ _ _ => mkDRS [] Operation.NONE⟩

/-- The environment built on `network42`. -/
def env42 : Env := ⟨network42, emptyStore, fun _ _ _ => 0⟩

/-- The single column hit of table T in the table-expansion fixture. -/
def colHit : Hit := ⟨2, "db", "T", "c2", 0⟩

/-- A Network whose table catalog maps table T to the single column
`colHit`. -/
def tableNetwork : Network :=
  ⟨fun _ => [], fun t => if t = "T" then [colHit] else [],
   fun _ _ => mkDRS [] Operation.NONE,
   fun _ _ _ _ => mkDRS [] Operation.NONE,
   fun _ _ _ _ => mkDRS [] Operation.NONE⟩

/-- The environment built on `tableNetwork`. -/
def envT : Env := ⟨tableNetwork, emptyStore, fun _ _ _ => 0⟩

/-- A one-hit TABLE-mode DRS over the table hit of T. -/
def tableDrs : DRS := ⟨[tableHit], DRSMode.TABLE, [Operation.ORIGIN]⟩

/-- Claim C1: the spec says `traverse` on a FIELDS-mode seed with
`max_hops = k` returns normally after exactly `k` rounds.  The code
cannot: line 259 reads `self.__network`, name-mangled to
`_Algebra__network`, an attribute `__init__` never sets (it sets
`_network`), so the first round over a non-empty fringe raises
`AttributeError`.  Evaluated here at the failing input: a one-hit
FIELDS-mode seed with `max_hops = 1`. -/
theorem C1_traverse_name_mangling_bug :
    traverse env0 (GInput.drs seedDrs) Relation.PKFK 1 =
      (Except.error attrErrorMsg, []) := rfl

/-- Claim C2, counterexample: a Hit with an empty field component
normalizes to a TABLE-mode DRS, and that normalization itself queries
the Network (`get_hits_from_table`), so `traverse` does not fail with
zero Network calls on every input that normalizes to TABLE mode. -/
theorem C2_traverse_table_counterexample :
    traverse env0 (GInput.hit tableHit) Relation.PKFK 2 =
      (Except.error tableModeErrorMsg, [NetCall.get_hits_from_table "T"]) ∧
    ([NetCall.get_hits_from_table "T"] : List NetCall) ≠ [] :=
  ⟨rfl, by decide⟩

/-- Claim C2, amended: for every input that normalizes to a TABLE-mode
DRS, `traverse` fails with the UnsupportedMode `ValueError`, and the
Network calls it performs are exactly those made by input normalization
— none are made after the mode check. -/
theorem C2_traverse_table_rejection (env : Env) (g : GInput) (d : DRS)
    (tr : List NetCall) (hg : generalToDrs env g = (Except.ok d, tr))
    (hm : d.mode = DRSMode.TABLE) (r : Relation) (k : Nat) :
    traverse env g r k = (Except.error tableModeErrorMsg, tr) := by
  simp [traverse, hg, hm]

/-- Claim C2, witness: the amended statement instantiated at the
table-hit input over the trivial environment. -/
theorem C2_traverse_table_rejection_witness :
    traverse env0 (GInput.hit tableHit) Relation.PKFK 5 =
      (Except.error tableModeErrorMsg, [NetCall.get_hits_from_table "T"]) :=
  C2_traverse_table_rejection env0 (GInput.hit tableHit)
    ⟨[], DRSMode.TABLE, [Operation.TABLE tableHit]⟩
    [NetCall.get_hits_from_table "T"] rfl rfl Relation.PKFK 5

/-- Claim C4: `union`, `intersection` and `difference` all fail with the
mode-mismatch `AssertionError` — and return no result DRS — whenever one
operand normalizes to FIELDS mode and the other to TABLE mode. -/
theorem C4_combiners_mode_mismatch (env : Env) (ga gb : GInput)
    (a b : DRS) (ha : (generalToDrs env ga).1 = Except.ok a)
    (hb : (generalToDrs env gb).1 = Except.ok b)
    (hm : a.mode ≠ b.mode) :
    unionG env ga gb = Except.error assertSameModeMsg ∧
    interG env ga gb = Except.error assertSameModeMsg ∧
    differenceG env ga gb = Except.error assertSameModeMsg := by
  refine ⟨?_, ?_, ?_⟩
  · unfold unionG; rw [ha, hb]; simp [hm]
  · unfold interG; rw [ha, hb]; simp [hm]
  · unfold differenceG; rw [ha, hb]; simp [generalToDrs, hm]

/-- Claim C4, witness: the three combiners rejecting an empty FIELDS
operand paired with an empty TABLE operand. -/
theorem C4_combiners_mode_mismatch_witness :
    unionG env0 (GInput.drs fieldsEmptyDrs) (GInput.drs tableEmptyDrs) =
      Except.error assertSameModeMsg ∧
    interG env0 (GInput.drs fieldsEmptyDrs) (GInput.drs tableEmptyDrs) =
      Except.error assertSameModeMsg ∧
    differenceG env0 (GInput.drs fieldsEmptyDrs) (GInput.drs tableEmptyDrs) =
      Except.error assertSameModeMsg :=
  C4_combiners_mode_mismatch env0 (GInput.drs fieldsEmptyDrs)
    (GInput.drs tableEmptyDrs) fieldsEmptyDrs tableEmptyDrs rfl rfl
    (by decide)

/-- A normally-returning run of `traverse`'s while loop hands back the
accumulator it started with: a non-empty fringe raises (the name-mangled
attribute, claim C1), and an empty fringe leaves the accumulator
untouched. -/
theorem traverseLoop_ok (o d : DRS) :
    ∀ (k : Nat) (fringe : DRS),
      traverseLoop o fringe k = Except.ok d → d = o := by
  intro k
  induction k with
  | zero =>
      intro fringe h
      simp [traverseLoop] at h
      exact h.symm
  | succ k ih =>
      intro fringe h
      unfold traverseLoop at h
      cases hf : fringe.data with
      | nil => rw [hf] at h; exact ih o h
      | cons x xs => rw [hf] at h; exact absurd h (by simp)

/-- Claim C9: `traverse`'s accumulator starts empty — only the seed's
provenance is absorbed — so `traverse(a, relation, 0)` returns a DRS
with no Hits (and with `a`'s trail behind the accumulator's own NONE
tag) even when `a` is non-empty; more generally every normally-returned
result of `traverse` contains no seed Hit that was not rediscovered as a
neighbor. -/
theorem C9_traverse_starts_empty (env : Env) (g : GInput) (a : DRS)
    (tr : List NetCall) (hg : generalToDrs env g = (Except.ok a, tr))
    (hm : a.mode = DRSMode.FIELDS) (r : Relation) :
    traverse env g r 0 =
      (Except.ok ⟨[], DRSMode.FIELDS, Operation.NONE :: a.trail⟩, tr) ∧
    ∀ (k : Nat) (d : DRS) (tr2 : List NetCall),
      traverse env g r k = (Except.ok d, tr2) → d.data = [] := by
  constructor
  · simp [traverse, hg, hm, traverseLoop, mkDRS, dedupHits, mergeHits,
      DRS.absorbProvenance]
  · intro k d tr2 h
    simp only [traverse, hg] at h
    rw [hm] at h
    rw [if_neg (by decide : ¬ (DRSMode.FIELDS = DRSMode.TABLE))] at h
    have hd := traverseLoop_ok _ d k a (congrArg Prod.fst h)
    rw [hd]
    rfl

/-- Claim C9, witness: on the one-hit FIELDS seed over the trivial
environment, zero hops return the hit-free accumulator carrying the
seed's provenance. -/
theorem C9_traverse_starts_empty_witness :
    traverse env0 (GInput.drs seedDrs) Relation.PKFK 0 =
      (Except.ok ⟨[], DRSMode.FIELDS, Operation.NONE :: seedDrs.trail⟩,
       []) :=
  (C9_traverse_starts_empty env0 (GInput.drs seedDrs) seedDrs [] rfl rfl
    Relation.PKFK).1

/-- Claim C5, counterexample: `paths` absorbs `b`'s provenance only when
`drs_b != drs_a`, and DRS equality compares hit sets by nid, so two
same-mode inputs with equal nid sets but different trails defeat the
claim: here the result trail has length 3, below the maximum input trail
length 4, and does not contain `b`'s trail. -/
theorem C5_paths_provenance_counterexample :
    paths env0 (GInput.drs seedDrs) (GInput.drs sameNidLongTrailDrs)
        Relation.PKFK 2 =
      Except.ok ⟨[], DRSMode.FIELDS,
        [Operation.NONE, Operation.ORIGIN, Operation.NONE]⟩ ∧
    3 < max seedDrs.trail.length sameNidLongTrailDrs.trail.length :=
  ⟨rfl, by decide⟩

/-- The pair loop of `paths` only ever appends to the accumulator's
provenance trail. -/
theorem pathsLoop_trail (env : Env) (mode : DRSMode) (relation : Relation)
    (max_hops : Nat) :
    ∀ (l : List (Hit × Hit)) (o : DRS),
      ∃ s, (pathsLoop env mode relation max_hops o l).trail =
        o.trail ++ s := by
  intro l
  induction l with
  | nil => intro o; exact ⟨[], by simp [pathsLoop]⟩
  | cons p rest ih =>
      intro o
      obtain ⟨h1, h2⟩ := p
      obtain ⟨s, hs⟩ := ih (o.absorb
        (if mode = DRSMode.FIELDS then
          env.network.find_path_hit h1 h2 relation max_hops
        else env.network.find_path_table h1 h2 relation max_hops))
      refine ⟨(if mode = DRSMode.FIELDS then
          env.network.find_path_hit h1 h2 relation max_hops
        else env.network.find_path_table h1 h2 relation max_hops).trail ++ s,
        ?_⟩
      rw [pathsLoop, hs]
      simp [DRS.absorb]

/-- Claim C5, amended: for same-mode DRS operands `a` and `b` that
differ as nid sets, the DRS returned by `paths` has a provenance trail
containing both `a`'s trail and `b`'s trail, of length at least the
maximum of the two input trail lengths; when the operands are equal as
nid sets the code absorbs only `a`'s provenance. -/
theorem C5_paths_provenance (env : Env) (a b : DRS) (r : Relation)
    (k : Nat) (hm : a.mode = b.mode) (hne : drsEq b a = false) :
    ∃ o, paths env (GInput.drs a) (GInput.drs b) r k = Except.ok o ∧
      (∃ s1 s2, o.trail = s1 ++ a.trail ++ s2) ∧
      (∃ s1 s2, o.trail = s1 ++ b.trail ++ s2) ∧
      max a.trail.length b.trail.length ≤ o.trail.length := by
  unfold paths
  simp only [generalToDrs]
  rw [if_pos hm, hne]
  simp only [Bool.false_eq_true, if_false]
  obtain ⟨s, hs⟩ := pathsLoop_trail env a.mode r k (pairsOf a.data b.data)
    (((mkDRS [] Operation.NONE).absorbProvenance a).absorbProvenance b)
  refine ⟨_, rfl, ?_, ?_, ?_⟩
  · refine ⟨[Operation.NONE], b.trail ++ s, ?_⟩
    rw [hs]
    simp [DRS.absorbProvenance, mkDRS]
  · refine ⟨Operation.NONE :: a.trail, s, ?_⟩
    rw [hs]
    simp [DRS.absorbProvenance, mkDRS]
  · rw [hs]
    simp only [DRS.absorbProvenance, mkDRS, List.length_append,
      List.length_cons, List.length_nil]
    exact Nat.max_le.mpr ⟨by omega, by omega⟩

/-- Claim C5, witness: the amended statement instantiated at two
nid-disjoint one-hit FIELDS operands over the trivial environment. -/
theorem C5_paths_provenance_witness :
    ∃ o, paths env0 (GInput.drs seedDrs) (GInput.drs otherNidDrs)
        Relation.PKFK 2 = Except.ok o ∧
      (∃ s1 s2, o.trail = s1 ++ seedDrs.trail ++ s2) ∧
      (∃ s1 s2, o.trail = s1 ++ otherNidDrs.trail ++ s2) ∧
      max seedDrs.trail.length otherNidDrs.trail.length ≤
        o.trail.length :=
  C5_paths_provenance env0 seedDrs otherNidDrs Relation.PKFK 2 rfl
    (by decide)

/-- Claim C6, counterexample: with two source hits and one target hit
the Cartesian product has two pairs, but `annotate` stores only one
annotation — its relational `return` sits inside the loop over source
hits, so only the first source hit's inner loop runs. -/
theorem C6_annotate_counterexample :
    (annotate env0 "au" "tx" MDClass.WARNING (GInput.drs srcDrs2)
        (GInput.drs tgtDrs1) (some MDRelation.MEANS_SAME_AS)).2 =
      [StoreCall.add_annot "au" "tx" "warning" 10 (some (20, "same"))] ∧
    srcDrs2.data.length * tgtDrs1.data.length = 2 :=
  ⟨rfl, rfl⟩

/-- Claim C6, amended: with a non-`None` relation type, after resolving
the MDRelation to a (label, orientation) pair and swapping source and
target when the orientation flag is false, `annotate` stores exactly one
annotation per (first post-swap source Hit, target Hit) pair — later
source hits contribute nothing — and returns exactly those stored
results in the MRS. -/
theorem C6_annotate_first_source_only (env : Env) (author text : String)
    (mc : MDClass) (gs gt : GInput) (r : MDRelation) (source target : DRS)
    (hs : (generalToDrs env gs).1 = Except.ok source)
    (ht : (generalToDrs env gt).1 = Except.ok target)
    (hsm : source.mode = DRSMode.FIELDS)
    (htm : target.mode = DRSMode.FIELDS) (s0 : Hit) (rest : List Hit)
    (hsrc : (if (mdrelationToStr r).2 then source else target).data =
      s0 :: rest) :
    annotate env author text mc gs gt (some r) =
      (Except.ok (some
        ⟨(if (mdrelationToStr r).2 then target else source).data.map
          (fun h => env.store_client.add_annot author text
            (mdclassToStr mc) s0.nid (some (h.nid, (mdrelationToStr r).1)))⟩),
       (if (mdrelationToStr r).2 then target else source).data.map
          (fun h => StoreCall.add_annot author text (mdclassToStr mc)
            s0.nid (some (h.nid, (mdrelationToStr r).1)))) := by
  unfold annotate
  rw [hs, ht]
  simp only [hsm, htm, ne_eq, not_true_eq_false, or_self, if_false,
    reduceIte]
  rw [hsrc]

/-- Claim C6, witness: the amended statement at the two-source fixture;
only the first source hit (nid 10) is annotated against the target. -/
theorem C6_annotate_first_source_only_witness :
    annotate env0 "au" "tx" MDClass.WARNING (GInput.drs srcDrs2)
        (GInput.drs tgtDrs1) (some MDRelation.MEANS_SAME_AS) =
      (Except.ok (some ⟨[⟨0⟩]⟩),
       [StoreCall.add_annot "au" "tx" "warning" 10 (some (20, "same"))]) :=
  C6_annotate_first_source_only env0 "au" "tx" MDClass.WARNING
    (GInput.drs srcDrs2) (GInput.drs tgtDrs1) MDRelation.MEANS_SAME_AS
    srcDrs2 tgtDrs1 rfl rfl rfl rfl srcHitA [srcHitB] rfl

/-- Claim C10: with a non-`None` relation type and an empty post-swap
source DRS, `annotate` falls off the end of the function — the `return`
is nested inside the loop over source hits — and so returns Python
`None` (no MRS at all), storing nothing. -/
theorem C10_annotate_empty_source_returns_none (env : Env)
    (author text : String) (mc : MDClass) (gs gt : GInput)
    (r : MDRelation) (source target : DRS)
    (hs : (generalToDrs env gs).1 = Except.ok source)
    (ht : (generalToDrs env gt).1 = Except.ok target)
    (hsm : source.mode = DRSMode.FIELDS)
    (htm : target.mode = DRSMode.FIELDS)
    (hsrc : (if (mdrelationToStr r).2 then source else target).data = []) :
    annotate env author text mc gs gt (some r) = (Except.ok none, []) := by
  unfold annotate
  rw [hs, ht]
  simp only [hsm, htm, ne_eq, not_true_eq_false, or_self, if_false,
    reduceIte]
  rw [hsrc]

/-- Claim C10, witness: an empty FIELDS source with a one-hit target
under `MEANS_SAME_AS` (no swap) yields an absent result and no Store
calls. -/
theorem C10_annotate_empty_source_returns_none_witness :
    annotate env0 "au" "tx" MDClass.WARNING (GInput.drs fieldsEmptyDrs)
        (GInput.drs tgtDrs1) (some MDRelation.MEANS_SAME_AS) =
      (Except.ok none, []) :=
  C10_annotate_empty_source_returns_none env0 "au" "tx" MDClass.WARNING
    (GInput.drs fieldsEmptyDrs) (GInput.drs tgtDrs1)
    MDRelation.MEANS_SAME_AS fieldsEmptyDrs tgtDrs1 rfl rfl rfl rfl rfl

/-- Claim C8: when a normalized source or target of `annotate`, or the
normalized input of `md_search`, is not in FIELDS mode, the operation
fails with the InvalidMode `ValueError` and performs no Store call at
all. -/
theorem C8_metadata_invalid_mode (env : Env) (author text : String)
    (mc : MDClass) (gs gt gi : GInput) (rty rel : Option MDRelation)
    (s t d : DRS)
    (hs : (generalToDrs env gs).1 = Except.ok s)
    (ht : (generalToDrs env gt).1 = Except.ok t)
    (hi : (generalToDrs env gi).1 = Except.ok d) :
    (s.mode ≠ DRSMode.FIELDS ∨ t.mode ≠ DRSMode.FIELDS →
      annotate env author text mc gs gt rty =
        (Except.error annotateModeMsg, [])) ∧
    (d.mode ≠ DRSMode.FIELDS →
      mdSearch env (some gi) rel = (Except.error mdSearchModeMsg, [])) := by
  constructor
  · intro hmode
    unfold annotate
    rw [hs, ht]
    simp [hmode]
  · intro hmode
    unfold mdSearch
    dsimp only
    rw [hi]
    simp [hmode]

/-- Claim C8, witness: a TABLE-mode operand makes `annotate` and
`md_search` fail with the InvalidMode error and an empty Store trace. -/
theorem C8_metadata_invalid_mode_witness :
    annotate env0 "au" "tx" MDClass.WARNING (GInput.drs tableEmptyDrs)
        (GInput.drs fieldsEmptyDrs) none =
      (Except.error annotateModeMsg, []) ∧
    mdSearch env0 (some (GInput.drs tableEmptyDrs)) none =
      (Except.error mdSearchModeMsg, []) :=
  ⟨(C8_metadata_invalid_mode env0 "au" "tx" MDClass.WARNING
      (GInput.drs tableEmptyDrs) (GInput.drs fieldsEmptyDrs)
      (GInput.drs tableEmptyDrs) none none tableEmptyDrs fieldsEmptyDrs
      tableEmptyDrs rfl rfl rfl).1 (Or.inl (by decide)),
   (C8_metadata_invalid_mode env0 "au" "tx" MDClass.WARNING
      (GInput.drs tableEmptyDrs) (GInput.drs fieldsEmptyDrs)
      (GInput.drs tableEmptyDrs) none none tableEmptyDrs fieldsEmptyDrs
      tableEmptyDrs rfl rfl rfl).2 (by decide)⟩

/-- Claim C7: an input that parses as an integer (an integer proper or a
numeric string) is resolved through `Network.get_info_for` into a single
zero-score Hit; when the returned field name is non-empty the normalizer
yields the one-Hit FIELDS-mode ORIGIN-tagged DRS of that Hit — in
particular, when identifier 42 maps to (dbA, orders, customer_id),
normalizing 42 returns a one-Hit FIELDS-mode DRS whose Hit has nid 42
and field customer_id. -/
theorem C7_identifier_normalization (env : Env) (n : Int) (s : String)
    (nid : Nat) (db src fld : String)
    (rest : List (Nat × String × String × String)) :
    (env.network.get_info_for [toString n] = (nid, db, src, fld) :: rest →
      fld ≠ "" →
      generalToDrs env (GInput.intv n) =
        (Except.ok ⟨[⟨nid, db, src, fld, 0⟩], DRSMode.FIELDS,
          [Operation.ORIGIN]⟩,
         [NetCall.get_info_for [toString n]])) ∧
    (s.toInt?.isSome = true →
      env.network.get_info_for [s] = (nid, db, src, fld) :: rest →
      fld ≠ "" →
      generalToDrs env (GInput.strv s) =
        (Except.ok ⟨[⟨nid, db, src, fld, 0⟩], DRSMode.FIELDS,
          [Operation.ORIGIN]⟩,
         [NetCall.get_info_for [s]])) ∧
    (env.network.get_info_for ["42"] =
        [(42, "dbA", "orders", "customer_id")] →
      generalToDrs env (GInput.intv 42) =
        (Except.ok ⟨[⟨42, "dbA", "orders", "customer_id", 0⟩],
          DRSMode.FIELDS, [Operation.ORIGIN]⟩,
         [NetCall.get_info_for ["42"]])) := by
  refine ⟨?_, ?_, ?_⟩
  · intro hinfo hfld
    unfold generalToDrs nidToHit
    dsimp only
    rw [hinfo]
    simp [hitBranch, hitToDrs, hfld, mkDRS, dedupHits, mergeHits, addHit,
      hasNid]
  · intro hint hinfo hfld
    unfold generalToDrs nidToHit
    dsimp only
    rw [if_pos hint, hinfo]
    simp [hitBranch, hitToDrs, hfld, mkDRS, dedupHits, mergeHits, addHit,
      hasNid]
  · intro hinfo
    unfold generalToDrs nidToHit
    dsimp only
    have hkey : toString (42 : Int) = "42" := rfl
    rw [hkey, hinfo]
    simp [hitBranch, hitToDrs, mkDRS, dedupHits, mergeHits, addHit,
      hasNid]

/-- Claim C7, witness: normalizing the integer 42 over the catalog that
maps it to (dbA, orders, customer_id). -/
theorem C7_identifier_normalization_witness :
    generalToDrs env42 (GInput.intv 42) =
      (Except.ok ⟨[⟨42, "dbA", "orders", "customer_id", 0⟩],
        DRSMode.FIELDS, [Operation.ORIGIN]⟩,
       [NetCall.get_info_for ["42"]]) :=
  (C7_identifier_normalization env42 42 "" 0 "" "" "" []).2.2 (by decide)

/-- Membership characterization of `hasNid`. -/
theorem hasNid_iff (l : List Hit) (n : Nat) :
    hasNid l n = true ↔ ∃ h ∈ l, h.nid = n := by
  simp [hasNid]

/-- Inserting a hit makes its nid present. -/
theorem hasNid_addHit_self (l : List Hit) (h : Hit) :
    hasNid (addHit l h) h.nid = true := by
  unfold addHit
  by_cases hl : hasNid l h.nid
  · rw [if_pos hl]; exact hl
  · rw [if_neg hl]
    exact (hasNid_iff _ _).mpr ⟨h, by simp, rfl⟩

/-- Inserting a hit preserves the nids already present. -/
theorem hasNid_addHit_mono (l : List Hit) (h : Hit) (n : Nat)
    (hn : hasNid l n = true) : hasNid (addHit l h) n = true := by
  unfold addHit
  by_cases hl : hasNid l h.nid
  · rw [if_pos hl]; exact hn
  · rw [if_neg hl]
    rcases (hasNid_iff l n).mp hn with ⟨x, hx, hxn⟩
    exact (hasNid_iff _ _).mpr ⟨x, by simp [hx], hxn⟩

/-- One folding step of `mergeHits`. -/
theorem mergeHits_cons (l : List Hit) (h : Hit) (m : List Hit) :
    mergeHits l (h :: m) = mergeHits (addHit l h) m := rfl

/-- `mergeHits` keeps its left operand as a prefix. -/
theorem mergeHits_prefix (m : List Hit) :
    ∀ l, ∃ t, l ++ t = mergeHits l m := by
  induction m with
  | nil => intro l; exact ⟨[], by simp [mergeHits]⟩
  | cons h m ih =>
      intro l
      rw [mergeHits_cons]
      obtain ⟨t, ht⟩ := ih (addHit l h)
      by_cases hl : hasNid l h.nid
      · rw [addHit, if_pos hl] at ht ⊢
        exact ⟨t, ht⟩
      · rw [addHit, if_neg hl] at ht ⊢
        exact ⟨[h] ++ t, by rw [← List.append_assoc]; exact ht⟩

/-- Nids of the left operand survive `mergeHits`. -/
theorem hasNid_mergeHits_left (m : List Hit) :
    ∀ l n, hasNid l n = true → hasNid (mergeHits l m) n = true := by
  induction m with
  | nil => intro l n hn; exact hn
  | cons h m ih =>
      intro l n hn
      exact ih (addHit l h) n (hasNid_addHit_mono l h n hn)

/-- Nids of the right operand are present after `mergeHits`. -/
theorem hasNid_mergeHits_right (m : List Hit) :
    ∀ l n, hasNid m n = true → hasNid (mergeHits l m) n = true := by
  induction m with
  | nil =>
      intro l n hn
      simp [hasNid] at hn
  | cons h m ih =>
      intro l n hn
      rcases (hasNid_iff (h :: m) n).mp hn with ⟨x, hx, hxn⟩
      rcases List.mem_cons.mp hx with hxh | hxm
      · subst hxh
        rw [← hxn]
        exact hasNid_mergeHits_left m (addHit l x) x.nid
          (hasNid_addHit_self l x)
      · exact ih (addHit l h) n ((hasNid_iff m n).mpr ⟨x, hxm, hxn⟩)

/-- Nids survive extending the list on the right. -/
theorem hasNid_append_left (l t : List Hit) (n : Nat)
    (hn : hasNid l n = true) : hasNid (l ++ t) n = true := by
  rcases (hasNid_iff l n).mp hn with ⟨x, hx, hxn⟩
  exact (hasNid_iff _ _).mpr ⟨x, List.mem_append_left t hx, hxn⟩

/-- Dropping at most the length of the left part of an append drops
inside that part. -/
theorem drop_append_le {α : Type} :
    ∀ (l t : List α) (n : Nat), n ≤ l.length →
      (l ++ t).drop n = l.drop n ++ t := by
  intro l
  induction l with
  | nil =>
      intro t n hn
      have h0 : n = 0 := Nat.le_zero.mp hn
      subst h0
      simp
  | cons x xs ih =>
      intro t n hn
      cases n with
      | zero => simp
      | succ n => exact ih t n (Nat.le_of_succ_le_succ hn)

/-- A drop below the length splits off the element at its index. -/
theorem drop_get_cons {α : Type} :
    ∀ (l : List α) (i : Nat) (h : i < l.length),
      l.drop i = l.get ⟨i, h⟩ :: l.drop (i + 1) := by
  intro l
  induction l with
  | nil => intro i h; exact absurd h (by simp)
  | cons x xs ih =>
      intro i h
      cases i with
      | zero => rfl
      | succ i => exact ih i (Nat.lt_of_succ_lt_succ h)

/-- Invariant of the table-expansion loop of `_general_to_field_drs`:
when the loop completes, the final DRS extends the starting hit list as
a prefix, keeps its mode, and — because every index from the current one
on gets processed, including the indices of hits the loop itself
absorbed — every column of the table expansion of every hit at or beyond
the current index is represented by nid in the final hit list. -/
theorem gtfLoop_invariant (env : Env) :
    ∀ (fuel : Nat) (d : DRS) (i : Nat) (e : DRS),
      (generalToFieldDrsLoop env fuel d i).1 = some e →
      (∃ t, d.data ++ t = e.data) ∧ e.mode = d.mode ∧
      ∀ hd ∈ d.data.drop i,
        ∀ c ∈ env.network.get_hits_from_table hd.source_name,
          hasNid e.data c.nid = true := by
  intro fuel
  induction fuel with
  | zero =>
      intro d i e h
      unfold generalToFieldDrsLoop at h
      by_cases hi : i < d.data.length
      · rw [if_pos hi] at h
        exact absurd h (by simp)
      · rw [if_neg hi] at h
        have he : d = e := by simpa using h
        subst he
        refine ⟨⟨[], by simp⟩, rfl, ?_⟩
        intro hd hmem
        rw [List.drop_eq_nil_of_le (Nat.le_of_not_lt hi)] at hmem
        exact absurd hmem (List.not_mem_nil hd)
  | succ fuel ih =>
      intro d i e h
      unfold generalToFieldDrsLoop at h
      by_cases hi : i < d.data.length
      · rw [dif_pos hi] at h
        dsimp only at h
        obtain ⟨⟨t, ht⟩, hmode, hinv⟩ :=
          ih (d.absorb (hitToDrs env (d.data.get ⟨i, hi⟩) true).1) (i + 1)
            e h
        obtain ⟨t1, ht1⟩ := mergeHits_prefix
          (hitToDrs env (d.data.get ⟨i, hi⟩) true).1.data d.data
        have habs : (d.absorb
            (hitToDrs env (d.data.get ⟨i, hi⟩) true).1).data =
          d.data ++ t1 := ht1.symm
        refine ⟨⟨t1 ++ t, ?_⟩, hmode, ?_⟩
        · rw [← List.append_assoc, ht1]
          exact ht
        · intro hd hmem c hc
          rw [drop_get_cons d.data i hi] at hmem
          rcases List.mem_cons.mp hmem with hhd | hhd
          · subst hhd
            have hc1 : hasNid (env.network.get_hits_from_table
                (d.data.get ⟨i, hi⟩).source_name) c.nid = true :=
              (hasNid_iff _ _).mpr ⟨c, hc, rfl⟩
            have hc2 : hasNid (dedupHits (env.network.get_hits_from_table
                (d.data.get ⟨i, hi⟩).source_name)) c.nid = true :=
              hasNid_mergeHits_right _ [] _ hc1
            have hc3 : hasNid ((d.absorb
                (hitToDrs env (d.data.get ⟨i, hi⟩) true).1).data)
                c.nid = true :=
              hasNid_mergeHits_right _ d.data _ hc2
            rw [← ht]
            exact hasNid_append_left _ _ _ hc3
          · refine hinv hd ?_ c hc
            rw [habs, drop_append_le d.data t1 (i + 1)
              (Nat.succ_le_of_lt hi)]
            exact List.mem_append_left t1 hhd
      · rw [dif_neg hi] at h
        have he : d = e := by simpa using h
        subst he
        refine ⟨⟨[], by simp⟩, rfl, ?_⟩
        intro hd hmem
        rw [List.drop_eq_nil_of_le (Nat.le_of_not_lt hi)] at hmem
        exact absurd hmem (List.not_mem_nil hd)

/-- The neighbor loop queries `neighbors_id` exactly once per hit of the
list it iterates, in order. -/
theorem neighborFold_trace (env : Env) (relation : Relation) :
    ∀ (l : List Hit) (o : DRS),
      (neighborFold env relation o l).2 =
        l.map (fun h => NetCall.neighbors_id h relation) := by
  intro l
  induction l with
  | nil => intro o; rfl
  | cons h rest ih =>
      intro o
      simp [neighborFold, ih]

/-- Claim C3, counterexample: on a TABLE-mode input over a catalog where
table T has the single column `colHit`, `neighbor_search` issues
`neighbors_id` for the original table-mode hit (empty field component)
as well as for the column hit — the table expansion absorbs column hits
but never removes the table hits — so the neighbor queries are not made
only at column granularity. -/
theorem C3_neighbor_search_counterexample :
    (neighborSearch envT (GInput.drs tableDrs) Relation.PKFK 4).2 =
      [NetCall.get_hits_from_table "T", NetCall.get_hits_from_table "T",
       NetCall.neighbors_id tableHit Relation.PKFK,
       NetCall.neighbors_id colHit Relation.PKFK] ∧
    tableHit.field_name = "" :=
  ⟨rfl, rfl⟩

/-- Claim C3, amended: on input normalizing to a TABLE-mode DRS,
`neighbor_search` expands the aliased input in place — absorbing every
table hit's column hits while retaining the original table hits and
switching the mode to FIELDS — and then issues exactly one `neighbors_id`
query per hit of the expanded DRS, folding the partial results with
`absorb`: the original table-mode hits are each queried, and every
column hit of every table expansion is represented by nid among the
queried hits. -/
theorem C3_neighbor_search_table_expansion (env : Env) (g : GInput)
    (i : DRS) (tr1 : List NetCall) (rel : Relation) (fuel : Nat)
    (e : DRS) (tr2 : List NetCall)
    (hg : generalToDrs env g = (Except.ok i, tr1))
    (hm : i.mode = DRSMode.TABLE)
    (hf : generalToFieldDrsLoop env fuel i.setFieldsMode 0 =
      (some e, tr2)) :
    neighborSearch env g rel fuel =
      (some (Except.ok (neighborFold env rel
          ((mkDRS [] Operation.NONE).absorbProvenance i) e.data).1),
       tr1 ++ tr2 ++ e.data.map (fun h => NetCall.neighbors_id h rel)) ∧
    (∃ t, i.data ++ t = e.data) ∧
    (∀ h ∈ i.data,
      NetCall.neighbors_id h rel ∈ (neighborSearch env g rel fuel).2) ∧
    (∀ h ∈ i.data, ∀ c ∈ env.network.get_hits_from_table h.source_name,
      ∃ h2 ∈ e.data, h2.nid = c.nid ∧
        NetCall.neighbors_id h2 rel ∈
          (neighborSearch env g rel fuel).2) := by
  have hns : neighborSearch env g rel fuel =
      (some (Except.ok (neighborFold env rel
          ((mkDRS [] Operation.NONE).absorbProvenance i) e.data).1),
       tr1 ++ tr2 ++ e.data.map (fun h => NetCall.neighbors_id h rel)) := by
    unfold neighborSearch
    rw [hg]
    dsimp only
    rw [hm, if_pos rfl, hf]
    dsimp only
    rw [neighborFold_trace]
  obtain ⟨⟨t, ht⟩, hmode, hinv⟩ :=
    gtfLoop_invariant env fuel i.setFieldsMode 0 e (by rw [hf])
  refine ⟨hns, ⟨t, ht⟩, ?_, ?_⟩
  · intro h hmem
    have hmem_e : h ∈ e.data := by
      rw [← ht]
      exact List.mem_append_left t hmem
    rw [hns]
    exact List.mem_append_right _ (List.mem_map_of_mem _ hmem_e)
  · intro h hmem c hc
    have hn : hasNid e.data c.nid = true := hinv h hmem c hc
    rcases (hasNid_iff _ _).mp hn with ⟨h2, hh2, hnid⟩
    refine ⟨h2, hh2, hnid, ?_⟩
    rw [hns]
    exact List.mem_append_right _ (List.mem_map_of_mem _ hh2)

/-- Claim C3, witness: the amended statement over the one-table catalog:
the expanded DRS holds the table hit followed by its column hit, both
are neighbor-queried, and the table hit's own query is in the trace. -/
theorem C3_neighbor_search_table_expansion_witness :
    neighborSearch envT (GInput.drs tableDrs) Relation.PKFK 4 =
      (some (Except.ok (neighborFold envT Relation.PKFK
          ((mkDRS [] Operation.NONE).absorbProvenance tableDrs)
          [tableHit, colHit]).1),
       [NetCall.get_hits_from_table "T", NetCall.get_hits_from_table "T",
        NetCall.neighbors_id tableHit Relation.PKFK,
        NetCall.neighbors_id colHit Relation.PKFK]) ∧
    NetCall.neighbors_id tableHit Relation.PKFK ∈
      (neighborSearch envT (GInput.drs tableDrs) Relation.PKFK 4).2 :=
  ⟨(C3_neighbor_search_table_expansion envT (GInput.drs tableDrs)
      tableDrs [] Relation.PKFK 4
      ⟨[tableHit, colHit], DRSMode.FIELDS,
        [Operation.ORIGIN, Operation.TABLE tableHit,
         Operation.TABLE colHit]⟩
      [NetCall.get_hits_from_table "T", NetCall.get_hits_from_table "T"]
      rfl rfl rfl).1,
   (C3_neighbor_search_table_expansion envT (GInput.drs tableDrs)
      tableDrs [] Relation.PKFK 4
      ⟨[tableHit, colHit], DRSMode.FIELDS,
        [Operation.ORIGIN, Operation.TABLE tableHit,
         Operation.TABLE colHit]⟩
      [NetCall.get_hits_from_table "T", NetCall.get_hits_from_table "T"]
      rfl rfl rfl).2.2.1 tableHit (by decide)⟩

end Aurum
